import Mathlib

/-!
Verification development for the ns-check repository.

The repository contains two variants of the nameserver health checker:
a flag-based program (the file with collectNameservers, sortNameservers,
writeResolvConf, run) modelled in namespace NsMain, and an object-oriented
variant ns-check/ns-check.go (NameServerManager with CollectNameServers,
SortNameServers, GetMaxNameservers, WriteResolvConf, Start) modelled in
namespace NsOO.  Go strings are modelled as lists of characters; the pieces
of Go's standard library that the programs use (strings.TrimSpace,
strings.Fields, strings.Split, strings.HasPrefix, bufio.Scanner line
splitting) are modelled below, faithful to their documented behaviour on
the character level.
-/

/-- A Go string, modelled as its list of characters. -/
abbrev GoStr := List Char

/-- Embed a Lean string literal as a Go string. -/
def gs (s : String) : GoStr := s.toList

/-- unicode.IsSpace for the characters relevant here (Latin-1 range):
space, tab, newline, vertical tab, form feed, carriage return, NEL, NBSP. -/
def goIsSpace (c : Char) : Bool :=
  c == ' ' || c == '\t' || c == '\n' || c == '\x0b' || c == '\x0c' ||
  c == '\r' || c == '\u0085' || c == '\u00A0'

/-- Push a character onto the first segment of a segment list. -/
def consHead (c : Char) : List GoStr → List GoStr
  | [] => [[c]]
  | l :: ls => (c :: l) :: ls

/-- Split a string at every character satisfying p, keeping empty segments;
this is the common core of strings.Split (single-character separator) and
of line splitting. -/
def splitP (p : Char → Bool) : GoStr → List GoStr
  | [] => [[]]
  | c :: rest => if p c then [] :: splitP p rest else consHead c (splitP p rest)

/-- strings.Fields: the maximal runs of non-whitespace characters. -/
def goFields (s : GoStr) : List GoStr :=
  (splitP goIsSpace s).filter (fun w => !w.isEmpty)

/-- strings.TrimSpace: drop leading and trailing whitespace. -/
def trimSpace (s : GoStr) : GoStr :=
  ((s.dropWhile goIsSpace).reverse.dropWhile goIsSpace).reverse

/-- strings.Split(s, ","). -/
def splitComma (s : GoStr) : List GoStr := splitP (fun c => c == ',') s

/-- bufio.Scanner yields no final empty token when the input ends in a
newline; an empty input yields no tokens at all. -/
def dropTrailingEmpty : List GoStr → List GoStr
  | [] => []
  | [l] => if l.isEmpty then [] else [l]
  | l :: ls => l :: dropTrailingEmpty ls

/-- bufio.ScanLines drops one trailing carriage return from each line. -/
def dropCR (l : GoStr) : GoStr :=
  match l.getLast? with
  | some c => if c = '\r' then l.dropLast else l
  | none => l

/-- The raw newline split of a file, before the scanner's trailing-token
adjustment. -/
def linesOf (f : GoStr) : List GoStr :=
  dropTrailingEmpty (splitP (fun c => c == '\n') f)

/-- The sequence of lines bufio.Scanner (with ScanLines) produces. -/
def scanLines (f : GoStr) : List GoStr := (linesOf f).map dropCR

theorem splitP_ne_nil (p : Char → Bool) (s : GoStr) : splitP p s ≠ [] := by
  cases s with
  | nil => simp [splitP]
  | cons c rest =>
    simp only [splitP]
    split
    · simp
    · cases h : splitP p rest with
      | nil => simp [consHead]
      | cons l ls => simp [consHead]

theorem splitP_append_sep (p : Char → Bool) (w t : GoStr) (d : Char)
    (hw : ∀ c ∈ w, p c = false) (hd : p d = true) :
    splitP p (w ++ d :: t) = w :: splitP p t := by
  induction w with
  | nil => simp [splitP, hd]
  | cons c w ih =>
    have hc : p c = false := hw c (by simp)
    have hw2 : ∀ x ∈ w, p x = false := fun x hx => hw x (by simp [hx])
    have hstep : splitP p ((c :: w) ++ d :: t) = consHead c (splitP p (w ++ d :: t)) := by
      simp [splitP, hc]
    rw [hstep, ih hw2]
    simp [consHead]

theorem splitP_all_neg (p : Char → Bool) (w : GoStr)
    (hw : ∀ c ∈ w, p c = false) : splitP p w = [w] := by
  induction w with
  | nil => rfl
  | cons c w ih =>
    have hc : p c = false := hw c (by simp)
    have hw2 : ∀ x ∈ w, p x = false := fun x hx => hw x (by simp [hx])
    simp [splitP, hc, ih hw2, consHead]

namespace NsMain

/-!
Model of the flag-based program (package main with parseFlags / run /
collectNameservers / sortNameservers / writeResolvConf).  File system and
network effects are supplied as explicit inputs: the content of the
resolv.conf file (or none when os.Open fails), the outcome of the HTTP
fetch, and for each candidate the result of net.DialTimeout expressed as
the elapsed wall-clock time together with whether the dial succeeded.
Durations are modelled in milliseconds as naturals.
-/

/-- The observable outcome of one net.DialTimeout call: elapsed is
time.Since(startTime) at the point measureLatency returns, ok records
whether err == nil.  A timed-out dial has elapsed greater than the
configured timeout; a quickly refused connection has a small elapsed
value with ok = false. -/
structure ProbeRes where
  elapsed : Nat
  ok : Bool
deriving DecidableEq

/-- measureLatency: returns time.Since(startTime) whether or not the dial
succeeded; the dial error is dropped on the floor. -/
def measureLatency (env : GoStr → ProbeRes) (nameserver : GoStr) : Nat :=
  (env nameserver).elapsed

/-- Comparison used by sort.Slice on latencyResult values. -/
def latLe (a b : GoStr × Nat) : Prop := a.2 ≤ b.2

instance : DecidableRel latLe := fun a b => Nat.decLe a.2 b.2

instance : IsTotal (GoStr × Nat) latLe := ⟨fun a b => Nat.le_total a.2 b.2⟩

instance : IsTrans (GoStr × Nat) latLe := ⟨fun _ _ _ => Nat.le_trans⟩

/-- sortNameservers: measure every candidate, sort the (nameserver,
latency) results by latency, then walk the sorted results and stop at the
first one whose latency exceeds nsTimeout (the break in the loop), keeping
the names of the results before that point.  The concurrent fan-out/fan-in
delivers results in an arbitrary order before sorting; the model fixes the
input order, which only affects tie order, and no claim concerns ties. -/
def sortNameservers (env : GoStr → ProbeRes) (nsTimeout : Nat)
    (nameservers : List GoStr) : List GoStr :=
  let results := nameservers.map (fun ns => (ns, measureLatency env ns))
  let sorted := List.insertionSort latLe results
  (sorted.takeWhile (fun r => decide (r.2 ≤ nsTimeout))).map Prod.fst

/-- readNameserversFromResolvConf, given the content the scanner sees:
for each line, trim it, and when it has the string nameserver as a prefix
and at least two whitespace-separated fields, append the second field.
The os.Open and scanner errors are I/O conditions outside the content and
are represented by the caller passing no content at all.  resolvLineStep
is the body of the scan loop, acting on the accumulator. -/
def resolvLineStep (acc : List GoStr) (rawLine : GoStr) : List GoStr :=
  let line := trimSpace rawLine
  if (gs "nameserver").isPrefixOf line then
    match goFields line with
    | _ :: second :: _ => acc ++ [second]
    | _ => acc
  else acc

/-- The body of the scan loop of readNameserversFromResolvConf as a fold
over the scanner's lines. -/
def readNameserversFromResolvConf (content : GoStr) : List GoStr :=
  (scanLines content).foldl resolvLineStep []

/-- The observable outcome of one httpClient.Get plus JSON decode. -/
inductive FetchOutcome where
  /-- httpClient.Get returned an error (connection failure or timeout). -/
  | conErr
  /-- the JSON decoder returned an error. -/
  | decodeErr
  /-- decode succeeded, yielding the nameservers and endpointURL fields
  (an absent JSON field decodes to its zero value). -/
  | ok (nameservers : List GoStr) (endpointURL : GoStr)
deriving DecidableEq

/-- fetchNameserversFromEndpoint: on any error it returns nil, the current
global endpointURL and the error; on success, an empty endpointURL field
is replaced by the current global endpointURL.  The url argument at the
only call site is the global endpointURL, passed here as endpointGlobal;
the Bool component records err != nil. -/
def fetchNameserversFromEndpoint (endpointGlobal : GoStr)
    (outcome : FetchOutcome) : List GoStr × GoStr × Bool :=
  match outcome with
  | .conErr => ([], endpointGlobal, true)
  | .decodeErr => ([], endpointGlobal, true)
  | .ok nss u => (nss, if u.isEmpty then endpointGlobal else u, false)

/-- The map[string]bool nameserver set, modelled as its list of keys in
insertion order; Go iterates map keys in an unspecified order, and every
claim about the set is order-insensitive. -/
def insertNS (s : List GoStr) (ns : GoStr) : List GoStr :=
  if ns ∈ s then s else s ++ [ns]

/-- addNameservers: insert every element of the slice into the set. -/
def addNameservers (nameservers : List GoStr) (nameserverSet : List GoStr) :
    List GoStr :=
  nameservers.foldl insertNS nameserverSet

/-- getNameservers: read the keys back out of the set. -/
def getNameservers (nameserverSet : List GoStr) : List GoStr := nameserverSet

/-- getDefaultNameservers: strings.Split on commas. -/
def getDefaultNameservers (defaultNameserver : GoStr) : List GoStr :=
  splitComma defaultNameserver

/-- The static configuration of the process (parsed flags). -/
structure Config where
  defaultNameserver : GoStr
  nsTimeout : Nat
  maxNameservers : Nat
  options : GoStr
  search : GoStr

/-- The external world one cycle observes. -/
structure CycleEnv where
  /-- content of the file at resolvConfPath, or none when os.Open (or the
  scanner) fails. -/
  fileContent : Option GoStr
  /-- outcome of the HTTP fetch against the current endpoint URL. -/
  fetchOutcome : FetchOutcome
  /-- outcome of the TCP dial per candidate. -/
  probe : GoStr → ProbeRes

/-- The candidates the resolv.conf source contributes (empty when the file
cannot be read). -/
def fileCandidates (env : CycleEnv) : List GoStr :=
  match env.fileContent with
  | some content => readNameserversFromResolvConf content
  | none => []

/-- Whether the first branch of collectNameservers fires:
err == nil && len(nameservers) > 0. -/
def fileContributes (env : CycleEnv) : Bool :=
  match env.fileContent with
  | some content => !(readNameserversFromResolvConf content).isEmpty
  | none => false

/-- The candidates the endpoint source contributes. -/
def fetchCandidates (env : CycleEnv) : List GoStr :=
  match env.fetchOutcome with
  | .ok nss _ => nss
  | _ => []

/-- Whether the second branch of collectNameservers fires. -/
def fetchContributes (env : CycleEnv) : Bool :=
  match env.fetchOutcome with
  | .ok nss _ => !nss.isEmpty
  | _ => false

/-- collectNameservers: build the set from the file source (if it read
successfully and yielded candidates), the endpoint source (likewise),
and unconditionally the comma-split default nameservers; also update the
global endpointURL with the second component fetchNameserversFromEndpoint
returned.  The function has a single return statement, which returns the
set and a nil error.  Result: ((candidate list, new endpointURL), error). -/
def collectNameservers (cfg : Config) (env : CycleEnv) (endpointGlobal : GoStr) :
    (List GoStr × GoStr) × Option GoStr :=
  let set0 : List GoStr := []
  let set1 := if fileContributes env then addNameservers (fileCandidates env) set0 else set0
  let fetched := fetchNameserversFromEndpoint endpointGlobal env.fetchOutcome
  let newEndpoint := fetched.2.1
  let set2 := if fetchContributes env then addNameservers (fetchCandidates env) set1 else set1
  let set3 := addNameservers (getDefaultNameservers cfg.defaultNameserver) set2
  ((getNameservers set3, newEndpoint), none)

/-- writeResolvConf: one nameserver line per entry up to maxNameservers
(the loop breaks at index maxNameservers), then an options line when the
options string is non-empty, then a search line when the search string is
non-empty.  The produced document is the full new file content. -/
def writeResolvConf (nameservers : List GoStr) (maxNameservers : Nat)
    (options : GoStr) (search : GoStr) : GoStr :=
  (((nameservers.take maxNameservers).map
      (fun ns => gs "nameserver " ++ ns ++ ['\n'])).flatten)
  ++ (if options.isEmpty then [] else gs "options " ++ options ++ ['\n'])
  ++ (if search.isEmpty then [] else gs "search " ++ search ++ ['\n'])

/-- What one iteration of the loop in run observes and produces. -/
structure CycleOut where
  /-- the document written to resolv.conf, none when the iteration skipped
  the write (the continue branch). -/
  written : Option GoStr
  /-- whether the slice expression in the completion log line,
  sortedNameservers with upper bound maxNameservers, is out of range:
  the slice was created with capacity equal to the candidate count, so Go
  panics exactly when maxNameservers exceeds that count. -/
  panicked : Bool
  /-- whether the iteration reached time.Sleep(interval). -/
  sleptInterval : Bool
  /-- the global endpointURL after the iteration. -/
  newEndpointURL : GoStr
deriving DecidableEq

/-- One iteration of the for loop in run: collect, sort, write, log (the
log line slices sortedNameservers up to maxNameservers and panics when
that exceeds its capacity, which equals the candidate count), then sleep.
On a collect error the iteration continues without sleeping, but
collectNameservers never returns an error. -/
def runCycle (cfg : Config) (env : CycleEnv) (endpointGlobal : GoStr) : CycleOut :=
  match collectNameservers cfg env endpointGlobal with
  | ((_, newEndpoint), some _) =>
    { written := none, panicked := false, sleptInterval := false,
      newEndpointURL := newEndpoint }
  | ((nameservers, newEndpoint), none) =>
    let sorted := sortNameservers env.probe cfg.nsTimeout nameservers
    let doc := writeResolvConf sorted cfg.maxNameservers cfg.options cfg.search
    let logPanics := decide (nameservers.length < cfg.maxNameservers)
    { written := some doc, panicked := logPanics,
      sleptInterval := !logPanics, newEndpointURL := newEndpoint }

end NsMain

namespace NsOO

/-!
Model of the object-oriented variant ns-check/ns-check.go
(NameServerManager / NameServerDetector).  It differs from the flag-based
program: CollectNameServers returns an error as soon as either the file
source or the endpoint source fails or yields nothing; measureLatency
returns (0, err) on a failed dial; SortNameServers keeps every result
(failed dials sort first with latency 0); truncation happens in
GetMaxNameservers; WriteResolvConf writes every entry it is given; and
Start continues to the next loop iteration without sleeping when
CollectNameServers fails.
-/

/-- The external world one iteration of Start observes. -/
structure Env where
  /-- content of the file at ResolvConfPath, none when it cannot be read. -/
  fileContent : Option GoStr
  /-- nameservers decoded from the endpoint, none on any fetch error. -/
  fetchResult : Option (List GoStr)
  /-- per-candidate dial outcome: none on error, some latency on success. -/
  probe : GoStr → Option Nat
  /-- whether every file.WriteString in WriteResolvConf succeeds. -/
  writeOk : Bool

/-- measureLatency: (0, err) on a failed dial, (elapsed, nil) otherwise. -/
def measureLatency (env : Env) (nameserver : GoStr) : Nat :=
  match env.probe nameserver with
  | none => 0
  | some d => d

/-- SortNameServers: measure every candidate, sort all results by latency
(failed dials carry latency 0 and sort to the front), and return every
name in that order; nothing is filtered out.  (In the source the results
slice is appended concurrently without synchronization — a data race; the
model collects results deterministically since the subsequent sort makes
the collection order irrelevant up to ties.) -/
def SortNameServers (env : Env) (nameservers : List GoStr) : List GoStr :=
  let results := nameservers.map (fun ns => (ns, measureLatency env ns))
  (List.insertionSort NsMain.latLe results).map Prod.fst

/-- GetMaxNameservers: the first MaxNameservers entries when at least that
many exist, otherwise all of them. -/
def GetMaxNameservers (maxNameservers : Nat) (nameservers : List GoStr) :
    List GoStr :=
  if nameservers.length ≥ maxNameservers then nameservers.take maxNameservers
  else nameservers

/-- CollectNameServers: unlike the flag-based variant, a file source that
errors or yields nothing makes the whole collection return (nil, error),
and likewise for the endpoint source; otherwise the deduplicated union of
both sources and the comma-split default nameservers is returned. -/
def CollectNameServers (defaultNameserver : GoStr) (env : Env) :
    Option (List GoStr) :=
  let fileNs :=
    match env.fileContent with
    | some content => NsMain.readNameserversFromResolvConf content
    | none => []
  if fileNs.isEmpty then none
  else
    match env.fetchResult with
    | none => none
    | some endpointNs =>
      if endpointNs.isEmpty then none
      else
        let set1 := NsMain.addNameservers fileNs []
        let set2 := NsMain.addNameservers endpointNs set1
        let set3 := NsMain.addNameservers
          (fileNs ++ endpointNs ++ splitComma defaultNameserver) set2
        some set3

/-- WriteResolvConf: every given nameserver line, then the optional
options and search lines; no truncation here. -/
def WriteResolvConf (nameservers : List GoStr) (options search : GoStr) :
    GoStr :=
  ((nameservers.map (fun ns => gs "nameserver " ++ ns ++ ['\n'])).flatten)
  ++ (if options.isEmpty then [] else gs "options " ++ options ++ ['\n'])
  ++ (if search.isEmpty then [] else gs "search " ++ search ++ ['\n'])

/-- What one iteration of the loop in Start does. -/
structure StartOutcome where
  /-- whether the iteration reached time.Sleep(nsd.config.Interval). -/
  sleptInterval : Bool
  /-- whether the collect-failure log line ran (the continue branch). -/
  loggedCollectFailure : Bool
  /-- whether the write-failure log line ran. -/
  loggedWriteFailure : Bool
  /-- the document handed to WriteResolvConf, none when the iteration
  never reached the write. -/
  written : Option GoStr
deriving DecidableEq

/-- One iteration of the for loop in Start: on a CollectNameServers error
it logs and continues, skipping the sleep entirely; otherwise it sorts,
truncates, writes (a write error is only logged), logs completion, and
sleeps for the configured interval. -/
def startCycleStep (defaultNameserver : GoStr) (maxNameservers : Nat)
    (options search : GoStr) (env : Env) : StartOutcome :=
  match CollectNameServers defaultNameserver env with
  | none =>
    { sleptInterval := false, loggedCollectFailure := true,
      loggedWriteFailure := false, written := none }
  | some nameservers =>
    let sorted := SortNameServers env nameservers
    let best := GetMaxNameservers maxNameservers sorted
    let doc := WriteResolvConf best options search
    { sleptInterval := true, loggedCollectFailure := false,
      loggedWriteFailure := !env.writeOk, written := some doc }

end NsOO

namespace NsMain

theorem mem_insertNS {s : List GoStr} {x y : GoStr} :
    y ∈ insertNS s x ↔ y ∈ s ∨ y = x := by
  unfold insertNS
  split
  · next h =>
    constructor
    · exact Or.inl
    · rintro (hy | rfl)
      · exact hy
      · exact h
  · simp [List.mem_append]

theorem mem_addNameservers {l : List GoStr} {s : List GoStr} {y : GoStr} :
    y ∈ addNameservers l s ↔ y ∈ s ∨ y ∈ l := by
  induction l generalizing s with
  | nil => simp [addNameservers]
  | cons a l ih =>
    show y ∈ addNameservers l (insertNS s a) ↔ _
    rw [ih, mem_insertNS]
    simp only [List.mem_cons]
    tauto

theorem nodup_insertNS {s : List GoStr} {x : GoStr} (h : s.Nodup) :
    (insertNS s x).Nodup := by
  unfold insertNS
  split
  · exact h
  · next hx => simp [List.nodup_append, h, hx]

theorem nodup_addNameservers {l s : List GoStr} (h : s.Nodup) :
    (addNameservers l s).Nodup := by
  induction l generalizing s with
  | nil => exact h
  | cons a l ih => exact ih (nodup_insertNS h)

theorem length_insertNS (s : List GoStr) (x : GoStr) :
    (insertNS s x).length ≤ s.length + 1 := by
  unfold insertNS
  split
  · omega
  · simp

theorem length_addNameservers (l s : List GoStr) :
    (addNameservers l s).length ≤ s.length + l.length := by
  induction l generalizing s with
  | nil => simp [addNameservers]
  | cons a l ih =>
    have h1 := ih (insertNS s a)
    have h2 := length_insertNS s a
    show (addNameservers l (insertNS s a)).length ≤ _
    simp only [List.length_cons]
    omega

/-- Membership in the collected candidate set: exactly the union of the
contributing sources and the always-present default fallback. -/
theorem mem_collect (cfg : Config) (env : CycleEnv) (g x : GoStr) :
    x ∈ (collectNameservers cfg env g).1.1 ↔
      (fileContributes env = true ∧ x ∈ fileCandidates env) ∨
      (fetchContributes env = true ∧ x ∈ fetchCandidates env) ∨
      x ∈ getDefaultNameservers cfg.defaultNameserver := by
  simp only [collectNameservers, getNameservers]
  cases hF : fileContributes env <;> cases hE : fetchContributes env <;>
    · simp [mem_addNameservers, hF, hE]
      try tauto

/-- The endpoint-URL state after a cycle, in both branches of runCycle,
is the second component fetchNameserversFromEndpoint returned. -/
theorem runCycle_newEndpointURL (cfg : Config) (env : CycleEnv) (g : GoStr) :
    (runCycle cfg env g).newEndpointURL =
      (fetchNameserversFromEndpoint g env.fetchOutcome).2.1 := by
  simp [runCycle, collectNameservers]

end NsMain

/-- C3: a failure of the local-file source or of the remote-endpoint
source is non-fatal to candidate collection: collectNameservers always
returns a nil error, its candidate set is never empty, every default
(fallback) nameserver is in it, and when both fallible sources fail the
set consists of fallback entries only (the failing sources contribute
zero candidates). -/
theorem collectNameservers_sourceFailure_nonfatal
    (cfg : NsMain.Config) (env : NsMain.CycleEnv) (g : GoStr) :
    (NsMain.collectNameservers cfg env g).2 = none ∧
    (NsMain.collectNameservers cfg env g).1.1 ≠ [] ∧
    (∀ x ∈ NsMain.getDefaultNameservers cfg.defaultNameserver,
       x ∈ (NsMain.collectNameservers cfg env g).1.1) ∧
    (NsMain.fileContributes env = false → NsMain.fetchContributes env = false →
       ∀ x ∈ (NsMain.collectNameservers cfg env g).1.1,
         x ∈ NsMain.getDefaultNameservers cfg.defaultNameserver) := by
  refine ⟨rfl, ?_, ?_, ?_⟩
  · have hne : NsMain.getDefaultNameservers cfg.defaultNameserver ≠ [] :=
      splitP_ne_nil _ _
    obtain ⟨d, hd⟩ := List.exists_mem_of_ne_nil _ hne
    intro hcontra
    have : d ∈ (NsMain.collectNameservers cfg env g).1.1 :=
      (NsMain.mem_collect cfg env g d).2 (Or.inr (Or.inr hd))
    rw [hcontra] at this
    exact List.not_mem_nil d this
  · intro x hx
    exact (NsMain.mem_collect cfg env g x).2 (Or.inr (Or.inr hx))
  · intro hF hE x hx
    rcases (NsMain.mem_collect cfg env g x).1 hx with ⟨h, _⟩ | ⟨h, _⟩ | h
    · rw [hF] at h
      exact absurd h (by simp)
    · rw [hE] at h
      exact absurd h (by simp)
    · exact h

/-- C3 witness: at a cycle where the file is unreadable and the endpoint
is unreachable, collection returns no error and the fallback address is
in the candidate set. -/
theorem collectNameservers_sourceFailure_nonfatal_witness :
    (NsMain.collectNameservers
        ⟨gs "8.8.8.8,1.1.1.1", 2000, 2, gs "", gs ""⟩
        ⟨none, .conErr, fun _ => ⟨1, true⟩⟩ (gs "http://u")).2 = none ∧
    gs "8.8.8.8" ∈ (NsMain.collectNameservers
        ⟨gs "8.8.8.8,1.1.1.1", 2000, 2, gs "", gs ""⟩
        ⟨none, .conErr, fun _ => ⟨1, true⟩⟩ (gs "http://u")).1.1 := by
  refine ⟨(collectNameservers_sourceFailure_nonfatal _ _ _).1, ?_⟩
  exact (collectNameservers_sourceFailure_nonfatal _ _ _).2.2.1 (gs "8.8.8.8")
    (by decide)

/-- C9: the candidate set built by collectNameservers holds no duplicate
entries, and its size is at most the sum of the sizes of the three source
sequences (local file, remote endpoint, static fallback). -/
theorem collectNameservers_nodup_and_size
    (cfg : NsMain.Config) (env : NsMain.CycleEnv) (g : GoStr) :
    ((NsMain.collectNameservers cfg env g).1.1).Nodup ∧
    ((NsMain.collectNameservers cfg env g).1.1).length ≤
      (NsMain.fileCandidates env).length + (NsMain.fetchCandidates env).length +
      (NsMain.getDefaultNameservers cfg.defaultNameserver).length := by
  simp only [NsMain.collectNameservers, NsMain.getNameservers]
  have hstep : ∀ (b : Bool) (l s : List GoStr), s.Nodup →
      ((if b then NsMain.addNameservers l s else s).Nodup ∧
       (if b then NsMain.addNameservers l s else s).length ≤ s.length + l.length) := by
    intro b l s hs
    cases b
    · exact ⟨by simpa using hs, by simp⟩
    · exact ⟨NsMain.nodup_addNameservers hs, NsMain.length_addNameservers l s⟩
  obtain ⟨h1n, h1l⟩ := hstep (NsMain.fileContributes env) (NsMain.fileCandidates env)
    [] List.nodup_nil
  obtain ⟨h2n, h2l⟩ := hstep (NsMain.fetchContributes env) (NsMain.fetchCandidates env)
    _ h1n
  refine ⟨NsMain.nodup_addNameservers h2n, ?_⟩
  have h3l := NsMain.length_addNameservers
    (NsMain.getDefaultNameservers cfg.defaultNameserver)
    (if NsMain.fetchContributes env then
        NsMain.addNameservers (NsMain.fetchCandidates env)
          (if NsMain.fileContributes env then
              NsMain.addNameservers (NsMain.fileCandidates env) [] else [])
      else
        (if NsMain.fileContributes env then
            NsMain.addNameservers (NsMain.fileCandidates env) [] else []))
  simp only [List.length_nil] at h1l h2l h3l ⊢
  omega

/-- C4: when a fetch succeeds, a non-empty endpointURL field in the JSON
response becomes the endpoint URL the next cycle fetches from, and an
empty field leaves the previous URL in place. -/
theorem runCycle_endpoint_redirect (cfg : NsMain.Config) (env : NsMain.CycleEnv)
    (g : GoStr) (nss : List GoStr) (u : GoStr)
    (h : env.fetchOutcome = .ok nss u) :
    (u ≠ [] → (NsMain.runCycle cfg env g).newEndpointURL = u) ∧
    (u = [] → (NsMain.runCycle cfg env g).newEndpointURL = g) := by
  rw [NsMain.runCycle_newEndpointURL, h]
  constructor
  · intro hu
    simp [NsMain.fetchNameserversFromEndpoint, List.isEmpty_iff, hu]
  · intro hu
    simp [NsMain.fetchNameserversFromEndpoint, hu]

/-- C4 witness: a response redirecting to host2 is adopted, and at the
same configuration an empty field keeps the old URL. -/
theorem runCycle_endpoint_redirect_witness :
    (NsMain.runCycle ⟨gs "8.8.8.8", 2000, 3, gs "", gs ""⟩
        ⟨none, .ok [gs "9.9.9.9"] (gs "http://host2/ns"), fun _ => ⟨1, true⟩⟩
        (gs "http://host1/ns")).newEndpointURL = gs "http://host2/ns" := by
  exact (runCycle_endpoint_redirect _ _ _ [gs "9.9.9.9"] (gs "http://host2/ns")
    rfl).1 (by decide)

/-- C10: a failed remote fetch (connection error or JSON decode error)
leaves the cross-cycle endpoint URL exactly as it was. -/
theorem runCycle_endpoint_stable_on_fetch_error (cfg : NsMain.Config)
    (env : NsMain.CycleEnv) (g : GoStr)
    (h : env.fetchOutcome = .conErr ∨ env.fetchOutcome = .decodeErr) :
    (NsMain.runCycle cfg env g).newEndpointURL = g := by
  rw [NsMain.runCycle_newEndpointURL]
  rcases h with h | h <;> rw [h] <;> rfl

/-- C10 witness: a connection error leaves the URL unchanged. -/
theorem runCycle_endpoint_stable_on_fetch_error_witness :
    (NsMain.runCycle ⟨gs "8.8.8.8", 2000, 3, gs "", gs ""⟩
        ⟨none, .conErr, fun _ => ⟨1, true⟩⟩
        (gs "http://host1/ns")).newEndpointURL = gs "http://host1/ns" :=
  runCycle_endpoint_stable_on_fetch_error _ _ _ (Or.inl rfl)

/-- C6: for every ranked list and maximum count, the selection produced by
GetMaxNameservers is exactly the length-min(len, m) prefix of the list:
it equals take m, its length is min(len, m), it is a prefix, and the
flag-based writer's break-at-maxNameservers loop writes exactly the same
truncation (writing the truncated list produces the same document). -/
theorem GetMaxNameservers_is_bounded_prefix (m : Nat) (ns : List GoStr)
    (options search : GoStr) :
    NsOO.GetMaxNameservers m ns = ns.take m ∧
    (NsOO.GetMaxNameservers m ns).length = min ns.length m ∧
    (∃ t, NsOO.GetMaxNameservers m ns ++ t = ns) ∧
    NsMain.writeResolvConf (ns.take m) m options search =
      NsMain.writeResolvConf ns m options search := by
  have htake : NsOO.GetMaxNameservers m ns = ns.take m := by
    unfold NsOO.GetMaxNameservers
    split
    · rfl
    · next h => exact (List.take_of_length_le (by omega)).symm
  refine ⟨htake, ?_, ?_, ?_⟩
  · rw [htake, List.length_take, Nat.min_comm]
  · exact ⟨ns.drop m, by rw [htake]; exact List.take_append_drop m ns⟩
  · unfold NsMain.writeResolvConf
    rw [List.take_take, Nat.min_self]

namespace NsMain

/-- In a latency-sorted result list, every result within the timeout bound
survives the takeWhile truncation. -/
theorem mem_takeWhile_of_sorted {l : List (GoStr × Nat)} {T : Nat}
    (hs : l.Sorted latLe) {x : GoStr × Nat} (hx : x ∈ l) (hle : x.2 ≤ T) :
    x ∈ l.takeWhile (fun r => decide (r.2 ≤ T)) := by
  induction l with
  | nil => cases hx
  | cons a t ih =>
    obtain ⟨ha, ht⟩ := List.sorted_cons.1 hs
    rcases List.mem_cons.1 hx with rfl | hxt
    · rw [List.takeWhile_cons, if_pos (by simpa using hle)]
      exact List.mem_cons_self _ _
    · have haT : a.2 ≤ T := le_trans (ha x hxt) hle
      rw [List.takeWhile_cons, if_pos (by simpa using haT)]
      exact List.mem_cons_of_mem _ (ih ht hxt)

end NsMain

/-- A probe environment in which every dial fails quickly (for example a
connection refused after one millisecond). -/
def failFastEnv : GoStr → NsMain.ProbeRes := fun _ => ⟨1, false⟩

/-- C1 counterexample: a candidate whose TCP connect FAILS after 1 ms,
well inside the 2000 ms timeout, appears in the ranked list that
sortNameservers returns — the sorter does not exclude failure outcomes,
because measureLatency discards the dial error and only the elapsed time
is compared against the timeout. -/
theorem sortNameservers_keeps_fast_failure :
    NsMain.sortNameservers failFastEnv 2000 [gs "10.0.0.1"] = [gs "10.0.0.1"] ∧
    (failFastEnv (gs "10.0.0.1")).ok = false := by
  decide

/-- C1 amended: the ranking excludes exactly the candidates whose measured
elapsed dial time exceeds the probe timeout.  Every entry of the ranked
list is an input candidate whose elapsed time is within the timeout (so a
timed-out dial, whose elapsed time exceeds the timeout, is excluded), and
conversely every candidate within the timeout is ranked — including
candidates whose dial failed faster than the timeout. -/
theorem sortNameservers_timeout_threshold (env : GoStr → NsMain.ProbeRes)
    (T : Nat) (nss : List GoStr) :
    (∀ ns ∈ NsMain.sortNameservers env T nss,
       ns ∈ nss ∧ (env ns).elapsed ≤ T) ∧
    (∀ ns ∈ nss, (env ns).elapsed ≤ T →
       ns ∈ NsMain.sortNameservers env T nss) := by
  constructor
  · intro ns hns
    simp only [NsMain.sortNameservers, List.mem_map] at hns
    obtain ⟨pair, hpair, rfl⟩ := hns
    have hsortedMem : pair ∈ List.insertionSort NsMain.latLe
        (nss.map (fun ns => (ns, NsMain.measureLatency env ns))) :=
      (List.takeWhile_sublist _).subset hpair
    rw [List.mem_insertionSort, List.mem_map] at hsortedMem
    obtain ⟨ns0, hns0, heq⟩ := hsortedMem
    have hT : pair.2 ≤ T := by simpa using List.mem_takeWhile_imp hpair
    cases heq
    exact ⟨hns0, hT⟩
  · intro ns hns hT
    have hmem : (ns, NsMain.measureLatency env ns) ∈
        nss.map (fun ns => (ns, NsMain.measureLatency env ns)) :=
      List.mem_map.2 ⟨ns, hns, rfl⟩
    have hsorted : (ns, NsMain.measureLatency env ns) ∈
        List.insertionSort NsMain.latLe
          (nss.map (fun ns => (ns, NsMain.measureLatency env ns))) :=
      (List.mem_insertionSort _).2 hmem
    have hin := NsMain.mem_takeWhile_of_sorted
      (List.sorted_insertionSort NsMain.latLe _) hsorted hT
    simpa [NsMain.sortNameservers] using List.mem_map_of_mem Prod.fst hin

/-- A probe environment where 1.1.1.1 answers in 5 ms and everything else
fails slowly. -/
def mixedEnv : GoStr → NsMain.ProbeRes :=
  fun ns => if ns = gs "1.1.1.1" then ⟨5, true⟩ else ⟨9999, false⟩

/-- C1 amended witness: a candidate probed within the timeout is ranked. -/
theorem sortNameservers_timeout_threshold_witness :
    (mixedEnv (gs "1.1.1.1")).elapsed ≤ 2000 ∧
    gs "1.1.1.1" ∈ NsMain.sortNameservers mixedEnv 2000
      [gs "9.9.9.9", gs "1.1.1.1"] :=
  ⟨by decide, (sortNameservers_timeout_threshold mixedEnv 2000
      [gs "9.9.9.9", gs "1.1.1.1"]).2 (gs "1.1.1.1") (by decide) (by decide)⟩

/-- Default configuration except that the fallback list holds a single
address, so the candidate set has fewer entries than maxNameservers. -/
def cfgOneFallback : NsMain.Config :=
  ⟨gs "8.8.8.8", 2000, 3, gs "timeout:1 attempts:1", gs "localhost"⟩

/-- Default configuration with the default three-address fallback list. -/
def cfgThreeFallback : NsMain.Config :=
  ⟨gs "8.8.8.8,8.8.4.4,1.1.1.1", 2000, 3, gs "timeout:1 attempts:1",
   gs "localhost"⟩

/-- A cycle in which the file and the endpoint are unavailable and every
probe times out (elapsed 5000 ms against a 2000 ms timeout). -/
def envAllFail : NsMain.CycleEnv :=
  ⟨none, .conErr, fun _ => ⟨5000, false⟩⟩

/-- C2: when every candidate fails probing, the document written to
resolv.conf indeed contains zero nameserver lines and only the configured
options and search lines — but when the candidate set is smaller than
maxNameservers (here one fallback address against the default maximum 3)
the cycle then PANICS: the completion log line slices sortedNameservers up
to maxNameservers, and that slice's capacity is the candidate count, so
the process aborts instead of completing the cycle.  With at least
maxNameservers candidates (second conjunct) the same all-fail cycle
completes without panicking. -/
theorem runCycle_allFail_writesEmptyButPanicsWhenFewCandidates :
    ((NsMain.runCycle cfgOneFallback envAllFail (gs "http://e")).written =
       some (gs "options timeout:1 attempts:1\nsearch localhost\n") ∧
     (NsMain.runCycle cfgOneFallback envAllFail (gs "http://e")).panicked = true) ∧
    ((NsMain.runCycle cfgThreeFallback envAllFail (gs "http://e")).written =
       some (gs "options timeout:1 attempts:1\nsearch localhost\n") ∧
     (NsMain.runCycle cfgThreeFallback envAllFail (gs "http://e")).panicked
       = false) := by
  decide

/-- An iteration of the OO variant in which the resolv.conf file cannot be
read, while everything else would succeed. -/
def envCollectFail : NsOO.Env :=
  ⟨none, some [gs "1.1.1.1"], fun _ => some 5, true⟩

/-- C5 counterexample: in the iteration where collecting fails, the
scheduler logs the failure but does NOT sleep — the continue statement
skips time.Sleep, so the next collecting phase starts immediately rather
than after the configured interval. -/
theorem startStep_collectFailure_skips_sleep :
    (NsOO.startCycleStep (gs "8.8.8.8") 3 (gs "") (gs "")
        envCollectFail).sleptInterval = false ∧
    (NsOO.startCycleStep (gs "8.8.8.8") 3 (gs "") (gs "")
        envCollectFail).loggedCollectFailure = true := by
  decide

/-- C5 amended: a failure in Writing is logged and the scheduler still
proceeds to the sleep before the next cycle, but a failure in Collecting
is logged and the scheduler restarts Collecting immediately, skipping the
sleep (and the write) entirely. -/
theorem startStep_failure_policy (d : GoStr) (m : Nat) (o s : GoStr)
    (env : NsOO.Env) :
    (NsOO.CollectNameServers d env = none →
       NsOO.startCycleStep d m o s env = ⟨false, true, false, none⟩) ∧
    (∀ nss, NsOO.CollectNameServers d env = some nss → env.writeOk = false →
       (NsOO.startCycleStep d m o s env).sleptInterval = true ∧
       (NsOO.startCycleStep d m o s env).loggedWriteFailure = true) := by
  constructor
  · intro h
    simp [NsOO.startCycleStep, h]
  · intro nss h hw
    simp [NsOO.startCycleStep, h, hw]

/-- An iteration of the OO variant in which collection succeeds but the
write to resolv.conf fails. -/
def envWriteFail : NsOO.Env :=
  ⟨some (gs "nameserver 1.2.3.4\n"), some [gs "8.8.8.8"], fun _ => some 5,
   false⟩

/-- C5 amended witness: a write failure is logged and the iteration still
sleeps for the interval. -/
theorem startStep_failure_policy_witness :
    (NsOO.startCycleStep (gs "9.9.9.9") 3 (gs "") (gs "")
        envWriteFail).sleptInterval = true ∧
    (NsOO.startCycleStep (gs "9.9.9.9") 3 (gs "") (gs "")
        envWriteFail).loggedWriteFailure = true :=
  (startStep_failure_policy (gs "9.9.9.9") 3 (gs "") (gs "") envWriteFail).2
    [gs "1.2.3.4", gs "8.8.8.8", gs "9.9.9.9"] (by decide) (by decide)

theorem mem_of_getLastQ {l : GoStr} {d : Char} (h : l.getLast? = some d) :
    d ∈ l := by
  obtain ⟨hne, heq⟩ :=
    List.mem_getLast?_eq_getLast (l := l) (x := d) (by simp [h])
  exact heq ▸ List.getLast_mem hne

theorem trimSpace_eq_self {l : GoStr}
    (hhead : ∀ c, l.head? = some c → goIsSpace c = false)
    (hlast : ∀ c, l.getLast? = some c → goIsSpace c = false) :
    trimSpace l = l := by
  unfold trimSpace
  cases l with
  | nil => rfl
  | cons a t =>
    have ha := hhead a rfl
    rw [List.dropWhile_cons, if_neg (by simp [ha])]
    obtain ⟨d, hd⟩ : ∃ d, (a :: t).getLast? = some d := by
      cases hl : (a :: t).getLast? with
      | none => exact absurd (List.getLast?_eq_none_iff.mp hl) (by simp)
      | some d => exact ⟨d, rfl⟩
    have hdns := hlast d hd
    have hrev : (a :: t).reverse.head? = some d := by
      rw [List.head?_reverse]
      exact hd
    have hdrop : (a :: t).reverse.dropWhile goIsSpace = (a :: t).reverse := by
      cases hr : (a :: t).reverse with
      | nil => rfl
      | cons x xs =>
        have hx : x = d := by
          rw [hr] at hrev
          exact (Option.some_inj.mp hrev)
        rw [List.dropWhile_cons, if_neg (by simp [hx, hdns])]
    rw [hdrop, List.reverse_reverse]

theorem trimSpace_cons_head (c : Char) (t : GoStr) (hc : goIsSpace c = false) :
    ∃ t2, trimSpace (c :: t) = c :: t2 := by
  unfold trimSpace
  rw [List.dropWhile_cons, if_neg (by simp [hc])]
  have hne : (c :: t).reverse.dropWhile goIsSpace ≠ [] := by
    intro hnil
    have hall := List.dropWhile_eq_nil_iff.mp hnil
    have : goIsSpace c = true := hall c (by simp)
    rw [hc] at this
    cases this
  have hsuff := List.dropWhile_suffix (l := (c :: t).reverse) goIsSpace
  obtain ⟨pre, hpre⟩ := hsuff
  have hlast : ((c :: t).reverse.dropWhile goIsSpace).getLast? = some c := by
    have h1 : (c :: t).reverse.getLast? = some c := by
      rw [List.getLast?_reverse]
      rfl
    rw [← hpre] at h1
    rwa [List.getLast?_append_of_ne_nil pre hne] at h1
  cases hdw : (c :: t).reverse.dropWhile goIsSpace with
  | nil => exact absurd hdw hne
  | cons x xs =>
    rw [hdw] at hlast
    have hx : (x :: xs).reverse.head? = some c := by
      rw [List.head?_reverse]
      exact hlast
    cases hxr : (x :: xs).reverse with
    | nil => exact absurd (congrArg List.length hxr) (by simp)
    | cons y ys =>
      rw [hxr] at hx
      have hyc : y = c := Option.some_inj.mp hx
      exact ⟨ys, by rw [hyc]⟩

theorem isPrefixOf_self_append (a b : GoStr) : a.isPrefixOf (a ++ b) = true := by
  induction a with
  | nil => simp [List.isPrefixOf]
  | cons c a ih => simp [List.isPrefixOf, ih]

/-- A character that is not whitespace is in particular not a newline. -/
theorem beq_nl_false_of_nonspace {c : Char} (h : goIsSpace c = false) :
    (c == '\n') = false := by
  cases hb : c == '\n' with
  | false => rfl
  | true =>
    rw [eq_of_beq hb] at h
    exact absurd h (by decide)

/-- A string not containing a newline has no character equal to it. -/
theorem beq_nl_false_of_not_mem {B : GoStr} (hB : '\n' ∉ B) :
    ∀ c ∈ B, (c == '\n') = false := by
  intro c hc
  cases hb : c == '\n' with
  | false => rfl
  | true => exact absurd (eq_of_beq hb ▸ hc) hB

theorem linesOf_nil : linesOf [] = [] := rfl

theorem dropTrailingEmpty_cons_of_ne_nil (w : GoStr) (P : List GoStr)
    (h : P ≠ []) : dropTrailingEmpty (w :: P) = w :: dropTrailingEmpty P := by
  cases P with
  | nil => exact absurd rfl h
  | cons q Q => rfl

theorem linesOf_cons (w rest : GoStr) (hw : ∀ c ∈ w, (c == '\n') = false) :
    linesOf (w ++ '\n' :: rest) = w :: linesOf rest := by
  unfold linesOf
  rw [splitP_append_sep _ w rest '\n' hw (by decide)]
  exact dropTrailingEmpty_cons_of_ne_nil _ _ (splitP_ne_nil _ _)

namespace NsMain

/-- The per-line extraction of readNameserversFromResolvConf as an Option:
the second field of the trimmed line when the trimmed line has the string
nameserver as a prefix and at least two fields. -/
def prefixSecondField (rawLine : GoStr) : Option GoStr :=
  let line := trimSpace rawLine
  if (gs "nameserver").isPrefixOf line then
    match goFields line with
    | _ :: second :: _ => some second
    | _ => none
  else none

theorem resolvLineStep_eq (acc : List GoStr) (l : GoStr) :
    resolvLineStep acc l = acc ++ (prefixSecondField l).toList := by
  unfold resolvLineStep prefixSecondField
  cases hP : (gs "nameserver").isPrefixOf (trimSpace l)
  · simp [hP]
  · cases hF : goFields (trimSpace l) with
    | nil => simp [hP, hF]
    | cons a t =>
      cases t with
      | nil => simp [hP, hF]
      | cons b t2 => simp [hP, hF]

theorem foldl_resolvLineStep (ls : List GoStr) (acc : List GoStr) :
    ls.foldl resolvLineStep acc = acc ++ ls.filterMap prefixSecondField := by
  induction ls generalizing acc with
  | nil => simp
  | cons l ls ih =>
    rw [List.foldl_cons, resolvLineStep_eq, ih, List.filterMap_cons]
    cases hf : prefixSecondField l <;> simp

/-- The loop of readNameserversFromResolvConf computes exactly the
per-line extraction over the scanner's lines. -/
theorem readNameservers_eq_filterMap (content : GoStr) :
    readNameserversFromResolvConf content =
      (scanLines content).filterMap prefixSecondField := by
  unfold readNameserversFromResolvConf
  rw [foldl_resolvLineStep]
  simp

/-- On a written nameserver line with a non-empty whitespace-free address,
the per-line extraction recovers exactly the address. -/
theorem prefixSecondField_nsLine (ns : GoStr) (hne : ns ≠ [])
    (hns : ∀ c ∈ ns, goIsSpace c = false) :
    prefixSecondField (gs "nameserver " ++ ns) = some ns := by
  have htrim : trimSpace (gs "nameserver " ++ ns) = gs "nameserver " ++ ns := by
    apply trimSpace_eq_self
    · intro c hc
      have hh : (gs "nameserver " ++ ns).head? = some 'n' := rfl
      rw [hh] at hc
      rw [← Option.some_inj.mp hc]
      decide
    · intro c hc
      rw [List.getLast?_append_of_ne_nil _ hne] at hc
      exact hns c (mem_of_getLastQ hc)
  have hsplit : gs "nameserver " ++ ns = gs "nameserver" ++ (' ' :: ns) := rfl
  have hpre : (gs "nameserver").isPrefixOf (gs "nameserver " ++ ns) = true := by
    rw [hsplit]
    exact isPrefixOf_self_append _ _
  have hnsEmpty : ns.isEmpty = false := by
    cases ns with
    | nil => exact absurd rfl hne
    | cons a t => rfl
  have hfields : goFields (gs "nameserver " ++ ns) = [gs "nameserver", ns] := by
    rw [hsplit]
    unfold goFields
    rw [splitP_append_sep goIsSpace (gs "nameserver") ns ' ' (by decide) (by decide)]
    rw [splitP_all_neg goIsSpace ns hns]
    simp only [List.filter, hnsEmpty]
    rfl
  simp [prefixSecondField, htrim, hpre, hfields]

/-- A line whose first character is neither whitespace nor the letter n
contributes nothing. -/
theorem prefixSecondField_cons_ne (c : Char) (t : GoStr)
    (hcs : goIsSpace c = false) (hcn : ('n' == c) = false) :
    prefixSecondField (c :: t) = none := by
  obtain ⟨t2, ht⟩ := trimSpace_cons_head c t hcs
  have hpre : (gs "nameserver").isPrefixOf (c :: t2) = false := by
    show ('n' :: gs "ameserver").isPrefixOf (c :: t2) = false
    simp [List.isPrefixOf, hcn]
  simp [prefixSecondField, ht, hpre]

/-- dropCR leaves a written nameserver line unchanged: its last character
is the last character of the address, which is not whitespace, so in
particular not a carriage return. -/
theorem dropCR_nsLine (ns : GoStr) (hne : ns ≠ [])
    (hns : ∀ c ∈ ns, goIsSpace c = false) :
    dropCR (gs "nameserver " ++ ns) = gs "nameserver " ++ ns := by
  obtain ⟨d, hd⟩ : ∃ d, ns.getLast? = some d := by
    cases hl : ns.getLast? with
    | none => exact absurd (List.getLast?_eq_none_iff.mp hl) hne
    | some d => exact ⟨d, rfl⟩
  have hlast : (gs "nameserver " ++ ns).getLast? = some d := by
    rw [List.getLast?_append_of_ne_nil _ hne]
    exact hd
  have hdr : ¬ d = '\r' := by
    intro h
    have := hns d (mem_of_getLastQ hd)
    rw [h] at this
    exact absurd this (by decide)
  simp [dropCR, hlast, hdr]

/-- A line of at least two characters whose first character is neither
whitespace nor the letter n contributes nothing even after the scanner's
carriage-return stripping. -/
theorem prefixSecondField_dropCR_cons2 (a b : Char) (t : GoStr)
    (has : goIsSpace a = false) (han : ('n' == a) = false) :
    prefixSecondField (dropCR (a :: b :: t)) = none := by
  have hcases : dropCR (a :: b :: t) = a :: b :: t ∨
      dropCR (a :: b :: t) = a :: (b :: t).dropLast := by
    unfold dropCR
    cases hl : (a :: b :: t).getLast? with
    | none => exact Or.inl rfl
    | some x =>
      by_cases hx : x = '\r'
      · right
        show (if x = '\r' then (a :: b :: t).dropLast else a :: b :: t) = _
        rw [if_pos hx]
        exact List.dropLast_cons₂ ..
      · left
        show (if x = '\r' then (a :: b :: t).dropLast else a :: b :: t) = _
        rw [if_neg hx]
  rcases hcases with h | h <;> rw [h] <;> exact prefixSecondField_cons_ne _ _ has han

end NsMain

namespace NsMain

/-- Newline split of a block of written nameserver lines followed by any
tail: one line per address. -/
theorem linesOf_nsBlock (sel : List GoStr) (tail : GoStr)
    (hwf : ∀ ns ∈ sel, ns ≠ [] ∧ ∀ c ∈ ns, goIsSpace c = false) :
    linesOf ((sel.map (fun ns => gs "nameserver " ++ ns ++ ['\n'])).flatten ++ tail)
      = (sel.map (fun ns => gs "nameserver " ++ ns)) ++ linesOf tail := by
  induction sel with
  | nil => simp
  | cons a sel ih =>
    obtain ⟨hne, hns⟩ := hwf a (by simp)
    have hlit : ∀ c ∈ gs "nameserver ", (c == '\n') = false := by decide
    have hw : ∀ c ∈ gs "nameserver " ++ a, (c == '\n') = false := by
      intro c hc
      rcases List.mem_append.1 hc with h | h
      · exact hlit c h
      · exact beq_nl_false_of_nonspace (hns c h)
    have hshape :
        ((a' : GoStr) → (gs "nameserver " ++ a' ++ ['\n']) ++
            ((sel.map (fun ns => gs "nameserver " ++ ns ++ ['\n'])).flatten ++ tail) =
          (gs "nameserver " ++ a') ++ ('\n' ::
            ((sel.map (fun ns => gs "nameserver " ++ ns ++ ['\n'])).flatten ++ tail))) := by
      intro a'
      rw [List.append_assoc (gs "nameserver " ++ a') ['\n']]
      rfl
    rw [List.map_cons, List.flatten_cons, List.append_assoc, hshape a,
      linesOf_cons _ _ hw, ih (fun ns hn => hwf ns (by simp [hn]))]
    rfl

/-- Newline split of the options/search epilogue of the document. -/
theorem linesOf_optSearch (O S : GoStr) (hO : '\n' ∉ O) (hS : '\n' ∉ S) :
    linesOf ((if O.isEmpty then [] else gs "options " ++ O ++ ['\n']) ++
             (if S.isEmpty then [] else gs "search " ++ S ++ ['\n'])) =
      (if O.isEmpty then ([] : List GoStr) else [gs "options " ++ O]) ++
      (if S.isEmpty then ([] : List GoStr) else [gs "search " ++ S]) := by
  have hline : ∀ (A : GoStr), (∀ c ∈ A, (c == '\n') = false) →
      linesOf (A ++ ['\n']) = [A] := by
    intro A hA
    have hsh : A ++ ['\n'] = A ++ '\n' :: [] := rfl
    rw [hsh, linesOf_cons _ _ hA, linesOf_nil]
  have hlitO : ∀ c ∈ gs "options ", (c == '\n') = false := by decide
  have hlitS : ∀ c ∈ gs "search ", (c == '\n') = false := by decide
  have hwO : ∀ c ∈ gs "options " ++ O, (c == '\n') = false := by
    intro c hc
    rcases List.mem_append.1 hc with h | h
    · exact hlitO c h
    · exact beq_nl_false_of_not_mem hO c h
  have hwS : ∀ c ∈ gs "search " ++ S, (c == '\n') = false := by
    intro c hc
    rcases List.mem_append.1 hc with h | h
    · exact hlitS c h
    · exact beq_nl_false_of_not_mem hS c h
  cases ho : O.isEmpty with
  | true =>
    cases hs : S.isEmpty with
    | true => exact linesOf_nil
    | false =>
      show linesOf (gs "search " ++ S ++ ['\n']) = [gs "search " ++ S]
      exact hline _ hwS
  | false =>
    cases hs : S.isEmpty with
    | true =>
      show linesOf ((gs "options " ++ O ++ ['\n']) ++ []) =
        [gs "options " ++ O] ++ []
      rw [List.append_nil, List.append_nil]
      exact hline _ hwO
    | false =>
      show linesOf ((gs "options " ++ O ++ ['\n']) ++ (gs "search " ++ S ++ ['\n']))
          = [gs "options " ++ O] ++ [gs "search " ++ S]
      have hsh : (gs "options " ++ O ++ ['\n']) ++ (gs "search " ++ S ++ ['\n']) =
          (gs "options " ++ O) ++ '\n' :: (gs "search " ++ S ++ ['\n']) := by
        rw [List.append_assoc (gs "options " ++ O) ['\n']]
        rfl
      rw [hsh, linesOf_cons _ _ hwO, hline _ hwS]
      rfl

end NsMain

/-- C7 counterexample: the round trip does not hold for every selection
and strings — an address containing a space is split by the reader, so
writing the selection with the single address a b and re-reading yields
the single address a instead. -/
theorem writeResolvConf_roundTrip_fails_on_space :
    NsMain.readNameserversFromResolvConf
        (NsMain.writeResolvConf [gs "a b"] 3 (gs "") (gs "")) = [gs "a"] ∧
    NsMain.readNameserversFromResolvConf
        (NsMain.writeResolvConf [gs "a b"] 3 (gs "") (gs "")) ≠ [gs "a b"] := by
  decide

set_option maxHeartbeats 2000000 in
/-- C7 amended: for every Selection (at most maxNameservers addresses,
per the data model) whose addresses are non-empty and whitespace-free,
and options and search strings containing no newline, writing the
resolver config and re-reading it with the local-file reader yields
exactly the same addresses in the same order, and the written document
contains the options line and the search line verbatim when the
corresponding string is non-empty. -/
theorem writeResolvConf_roundTrip (sel : List GoStr) (O S : GoStr) (m : Nat)
    (hlen : sel.length ≤ m)
    (hwf : ∀ ns ∈ sel, ns ≠ [] ∧ ∀ c ∈ ns, goIsSpace c = false)
    (hO : '\n' ∉ O) (hS : '\n' ∉ S) :
    NsMain.readNameserversFromResolvConf (NsMain.writeResolvConf sel m O S) = sel ∧
    (O ≠ [] → ∃ pre post, NsMain.writeResolvConf sel m O S =
        pre ++ (gs "options " ++ O ++ ['\n']) ++ post) ∧
    (S ≠ [] → ∃ pre post, NsMain.writeResolvConf sel m O S =
        pre ++ (gs "search " ++ S ++ ['\n']) ++ post) := by
  have htake : sel.take m = sel := List.take_of_length_le hlen
  have hdoc : NsMain.writeResolvConf sel m O S =
      (sel.map (fun ns => gs "nameserver " ++ ns ++ ['\n'])).flatten ++
      ((if O.isEmpty then [] else gs "options " ++ O ++ ['\n']) ++
       (if S.isEmpty then [] else gs "search " ++ S ++ ['\n'])) := by
    unfold NsMain.writeResolvConf
    rw [htake, List.append_assoc]
  refine ⟨?_, ?_, ?_⟩
  · rw [hdoc, NsMain.readNameservers_eq_filterMap]
    unfold scanLines
    rw [NsMain.linesOf_nsBlock sel _ hwf, NsMain.linesOf_optSearch O S hO hS,
      List.map_append, List.filterMap_append]
    have h1 : List.filterMap NsMain.prefixSecondField
        ((sel.map (fun ns => gs "nameserver " ++ ns)).map dropCR) = sel := by
      rw [List.map_map, List.filterMap_map]
      have hcong : ∀ ns ∈ sel,
          (NsMain.prefixSecondField ∘ (dropCR ∘ fun ns => gs "nameserver " ++ ns)) ns
            = some ns := by
        intro ns hn
        obtain ⟨hne, hns⟩ := hwf ns hn
        show NsMain.prefixSecondField (dropCR (gs "nameserver " ++ ns)) = some ns
        rw [NsMain.dropCR_nsLine ns hne hns]
        exact NsMain.prefixSecondField_nsLine ns hne hns
      rw [List.filterMap_congr hcong]
      exact List.filterMap_some ..
    have hOnone : NsMain.prefixSecondField (dropCR (gs "options " ++ O)) = none := by
      have hsplit : gs "options " ++ O = 'o' :: 'p' :: (gs "tions " ++ O) := rfl
      rw [hsplit]
      exact NsMain.prefixSecondField_dropCR_cons2 'o' 'p' _ (by decide) (by decide)
    have hSnone : NsMain.prefixSecondField (dropCR (gs "search " ++ S)) = none := by
      have hsplit : gs "search " ++ S = 's' :: 'e' :: (gs "arch " ++ S) := rfl
      rw [hsplit]
      exact NsMain.prefixSecondField_dropCR_cons2 's' 'e' _ (by decide) (by decide)
    have h2 : List.filterMap NsMain.prefixSecondField
        (((if O.isEmpty then ([] : List GoStr) else [gs "options " ++ O]) ++
          (if S.isEmpty then ([] : List GoStr) else [gs "search " ++ S])).map
            dropCR) = [] := by
      cases ho : O.isEmpty <;> cases hs : S.isEmpty <;>
        simp [List.filterMap_cons, hOnone, hSnone]
    rw [h1, h2, List.append_nil]
  · intro hOne
    have ho : O.isEmpty = false := by
      cases O with
      | nil => exact absurd rfl hOne
      | cons a t => rfl
    refine ⟨(sel.map (fun ns => gs "nameserver " ++ ns ++ ['\n'])).flatten,
            (if S.isEmpty then [] else gs "search " ++ S ++ ['\n']), ?_⟩
    rw [hdoc, ho]
    show (sel.map (fun ns => gs "nameserver " ++ ns ++ ['\n'])).flatten ++
        ((gs "options " ++ O ++ ['\n']) ++
         (if S.isEmpty then [] else gs "search " ++ S ++ ['\n'])) = _
    exact (List.append_assoc _ _ _).symm
  · intro hSne
    have hs : S.isEmpty = false := by
      cases S with
      | nil => exact absurd rfl hSne
      | cons a t => rfl
    refine ⟨(sel.map (fun ns => gs "nameserver " ++ ns ++ ['\n'])).flatten ++
            (if O.isEmpty then [] else gs "options " ++ O ++ ['\n']), [], ?_⟩
    rw [hdoc, hs, List.append_nil]
    show (sel.map (fun ns => gs "nameserver " ++ ns ++ ['\n'])).flatten ++
        ((if O.isEmpty then [] else gs "options " ++ O ++ ['\n']) ++
         (gs "search " ++ S ++ ['\n'])) = _
    exact (List.append_assoc _ _ _).symm

/-- C7 amended witness: a two-address selection with the default options
and search strings survives the round trip, and the options line appears
verbatim in the document. -/
theorem writeResolvConf_roundTrip_witness :
    NsMain.readNameserversFromResolvConf
        (NsMain.writeResolvConf [gs "1.1.1.1", gs "8.8.8.8"] 2
          (gs "timeout:1 attempts:1") (gs "localhost")) =
      [gs "1.1.1.1", gs "8.8.8.8"] ∧
    (∃ pre post, NsMain.writeResolvConf [gs "1.1.1.1", gs "8.8.8.8"] 2
        (gs "timeout:1 attempts:1") (gs "localhost") =
      pre ++ (gs "options " ++ gs "timeout:1 attempts:1" ++ ['\n']) ++ post) :=
  ⟨(writeResolvConf_roundTrip [gs "1.1.1.1", gs "8.8.8.8"]
      (gs "timeout:1 attempts:1") (gs "localhost") 2 (by decide) (by decide)
      (by decide) (by decide)).1,
   (writeResolvConf_roundTrip [gs "1.1.1.1", gs "8.8.8.8"]
      (gs "timeout:1 attempts:1") (gs "localhost") 2 (by decide) (by decide)
      (by decide) (by decide)).2.1 (by decide)⟩

/-- The spec's wording of the reader, taken literally: a line counts only
when it begins with the TOKEN nameserver, that is, when its first
whitespace-separated field is exactly the word nameserver; the second
field of each such line is collected.  Compare with the implementation,
which tests for nameserver as a string prefix of the trimmed line. -/
def specTokenSecondFields (content : GoStr) : List GoStr :=
  (scanLines content).filterMap (fun rawLine =>
    let line := trimSpace rawLine
    match goFields line with
    | first :: second :: _ => if first = gs "nameserver" then some second else none
    | _ => none)

/-- C8 counterexample: on the line nameserverfoo 1.2.3.4 the reader
extracts 1.2.3.4 although the line does not begin with the token
nameserver (its first field is nameserverfoo), because the code only
tests strings.HasPrefix. -/
theorem readNameservers_not_token_based :
    NsMain.readNameserversFromResolvConf (gs "nameserverfoo 1.2.3.4\n") =
      [gs "1.2.3.4"] ∧
    specTokenSecondFields (gs "nameserverfoo 1.2.3.4\n") = [] ∧
    NsMain.readNameserversFromResolvConf (gs "nameserverfoo 1.2.3.4\n") ≠
      specTokenSecondFields (gs "nameserverfoo 1.2.3.4\n") := by
  decide

/-- C8 amended: for every file content the reader returns exactly the
second whitespace-separated field of each line whose trimmed text has the
string nameserver as a prefix and has at least two fields (and no field
from any other line), and when no line matches it returns the empty
sequence. -/
theorem readNameservers_characterization (content : GoStr) :
    NsMain.readNameserversFromResolvConf content =
      (scanLines content).filterMap NsMain.prefixSecondField ∧
    ((∀ line ∈ scanLines content, NsMain.prefixSecondField line = none) →
      NsMain.readNameserversFromResolvConf content = []) := by
  refine ⟨NsMain.readNameservers_eq_filterMap content, ?_⟩
  intro hall
  rw [NsMain.readNameservers_eq_filterMap content]
  exact List.filterMap_eq_nil_iff.mpr hall

/-- C8 amended witness: a file with no nameserver lines reads back as the
empty sequence. -/
theorem readNameservers_characterization_witness :
    NsMain.readNameserversFromResolvConf (gs "search corp\n") = [] :=
  (readNameservers_characterization (gs "search corp\n")).2 (by decide)
